import Mathlib

/-!
# twitchgo: request construction and response decoding

A shallow embedding of `twitch.go` (package `twitch`): the client options,
`NewTwitchClient`, and `getRequest`.

Go strings are modelled by Lean strings; where Go works on bytes
(`url.QueryEscape`, `sort.Strings`) the model works on the UTF-8 bytes of the
string.  The parts of the Go standard library that `getRequest` calls are
modelled next to it:

* `net/url`: `Values`, `Values.Add`, `Values.Encode`, `QueryEscape`;
* `fmt`: the verb `%d` on an integer (`formatInt`);
* `net/http`: `Request`, `Header.Set`, `NewRequest`, `Client.Do`;
* `io/ioutil.ReadAll` and `encoding/json.Unmarshal`.

What the outside world decides (whether a URL parses, what the transport
answers, how a body decodes into the caller's target) is a field of `Env`.
-/

namespace Twitch

/-! ## Go strings -/

/-- The bytes of a Go string: the UTF-8 encoding of its characters. -/
def utf8Bytes (s : String) : List Nat :=
  s.data.flatMap (fun c => (String.utf8EncodeChar c).map UInt8.toNat)

/-- Lexicographic order on byte sequences, the order of Go's `<` on strings. -/
def bytesLess : List Nat → List Nat → Bool
  | _, [] => false
  | [], _ :: _ => true
  | a :: as, b :: bs => a < b || (a == b && bytesLess as bs)

/-- Go's `a < b` on strings. -/
def stringLess (a b : String) : Bool := bytesLess (utf8Bytes a) (utf8Bytes b)

/-- Insert a key into an ascending list of keys. -/
def insertSorted (k : String) : List String → List String
  | [] => [k]
  | x :: xs => if stringLess x k then x :: insertSorted k xs else k :: x :: xs

/-- Go's `sort.Strings`: the keys in ascending byte order. -/
def sortStrings (keys : List String) : List String :=
  keys.foldr insertSorted []

/-! ## `fmt` -/

/-- The text `fmt.Sprintf("%d", n)` produces: signed decimal. -/
def formatInt (n : Int) : String :=
  if n < 0 then "-" ++ Nat.repr n.natAbs else Nat.repr n.toNat

/-! ## `net/url` -/

/-- Go's `shouldEscape(c, encodeQueryComponent)`: every byte is escaped but the
unreserved ones, `a-z A-Z 0-9 - _ . ~`. -/
def shouldEscape (c : Nat) : Bool :=
  if (97 ≤ c && c ≤ 122) || (65 ≤ c && c ≤ 90) || (48 ≤ c && c ≤ 57) then false
  else if c = 45 || c = 95 || c = 46 || c = 126 then false
  else true

/-- The hexadecimal digit `"0123456789ABCDEF"[n]`. -/
def upperhex (n : Nat) : Char :=
  "0123456789ABCDEF".data.getD n '0'

/-- One byte of `escape(s, encodeQueryComponent)`: a space becomes `+`, a byte
that must be escaped becomes `%XX`, any other byte is kept. -/
def escapeByte (c : Nat) : List Char :=
  if c = 32 then ['+']
  else if shouldEscape c then ['%', upperhex (c / 16), upperhex (c % 16)]
  else [Char.ofNat c]

/-- Go's `url.QueryEscape`. -/
def QueryEscape (s : String) : String :=
  String.mk ((utf8Bytes s).flatMap escapeByte)

/-- Go's `url.Values`, a `map[string][]string`, as an association list: a key
is bound to the values of its first entry. -/
abbrev Values := List (String × List String)

/-- The map lookup `v[key]`; a missing key gives the empty slice. -/
def Values.Get (v : Values) (key : String) : List String :=
  (v.lookup key).getD []

/-- Go's `v.Add(key, value)`: `v[key] = append(v[key], value)`. -/
def Values.Add : Values → String → String → Values
  | [], key, value => [(key, [value])]
  | (k, vs) :: rest, key, value =>
    if k = key then (k, vs ++ [value]) :: rest
    else (k, vs) :: Values.Add rest key value

/-- The keys of the map, as `for k := range v` collects them. -/
def Values.keys (v : Values) : List String := v.map Prod.fst

/-- One step of the inner loop of `Encode`: write `&` when the buffer already
holds something, then the escaped key, `=`, and the escaped value. -/
def encodeStep (keyEscaped : String) (buf : String) (value : String) : String :=
  let buf := if buf.length > 0 then buf ++ "&" else buf
  buf ++ keyEscaped ++ "=" ++ QueryEscape value

/-- Go's `v.Encode()`: the keys are sorted, and every value of every key is
written to a buffer as `key=value`, escaped, with `&` between the pairs. -/
def Values.Encode (v : Values) : String :=
  if v.length = 0 then ""
  else
    (sortStrings v.keys).foldl
      (fun buf k => (v.Get k).foldl (encodeStep (QueryEscape k)) buf) ""

/-! ## `net/http`, `io/ioutil`, `encoding/json` -/

/-- A Go `error` value, identified by its message. -/
structure GoError where
  msg : String
deriving DecidableEq

/-- Go's `fmt.Errorf("Request failed with status: %v", code)`. -/
def statusError (code : Int) : GoError :=
  ⟨"Request failed with status: " ++ formatInt code⟩

/-- An `http.Header` on which only `Set` is used: one value per key.  Keys are
kept as the source writes them. -/
abbrev Header := List (String × String)

/-- Go's `h.Set(key, value)`: the key is bound to this value alone. -/
def Header.Set (h : Header) (key value : String) : Header :=
  (key, value) :: h.filter (fun kv => kv.1 ≠ key)

/-- The value a key is bound to, `none` when the header is absent. -/
def Header.Get (h : Header) (key : String) : Option String :=
  h.lookup key

/-- An `*http.Request` as `http.NewRequest` returns it. -/
structure Request where
  Method : String
  URL : String
  Header : Header
deriving DecidableEq

/-- What reading the response body to its end gives: the bytes read and the
read error, if any. -/
structure Body where
  data : String
  err : Option GoError
deriving DecidableEq

/-- An `*http.Response`. -/
structure Response where
  StatusCode : Int
  Body : Body
deriving DecidableEq

/-- Go's `ioutil.ReadAll`. -/
def ReadAll (b : Body) : String × Option GoError := (b.data, b.err)

/-- Go's `http.StatusOK`. -/
def StatusOK : Int := 200

/-- An `http.Client`: its `Transport`, where `none` (the zero value) stands for
`http.DefaultTransport`. -/
structure HttpClient where
  Transport : Option (Request → Except GoError Response)

/-- The outside world of one call, for a target of type `T`. -/
structure Env (T : Type) where
  /-- whether `url.Parse`, inside `http.NewRequest`, accepts the raw URL -/
  validURL : String → Bool
  /-- the answer of `http.DefaultTransport` to a request -/
  DefaultTransport : Request → Except GoError Response
  /-- `json.Unmarshal(body, out)`: the target afterwards and the error -/
  Unmarshal : String → T → T × Option GoError

/-- Go's `http.NewRequest(method, url, nil)`: `none` is the nil request that
comes with an error. -/
def NewRequest {T : Type} (env : Env T) (method url : String) : Option Request :=
  if env.validURL url then some { Method := method, URL := url, Header := [] }
  else none

/-- Go's `c.Do(req)` on a non-nil client. -/
def HttpClient.Do {T : Type} (env : Env T) (c : HttpClient) (req : Request) :
    Except GoError Response :=
  match c.Transport with
  | some roundTrip => roundTrip req
  | none => env.DefaultTransport req

/-! ## `twitch.go` -/

def baseUrl : String := "https://api.twitch.tv/kraken"

def helixBaseUrl : String := "https://api.twitch.tv/helix"

structure TwitchClient where
  HttpClient : Option HttpClient
  ClientID : String
  Token : String

/-- A `func(*TwitchClient)`: the client after the function ran on it. -/
abbrev TwitchClientOption := TwitchClient → TwitchClient

structure RequestOptions where
  Limit : Int
  Offset : Int
  Direction : String
  Nonce : Int
  Channel : String
  Version : String
  Extra : Option Values
deriving DecidableEq

def WithClientID (clientID : String) : TwitchClientOption :=
  fun cl => { cl with ClientID := clientID }

def WithHTTPClient (httpClient : Option HttpClient) : TwitchClientOption :=
  fun cl => { cl with HttpClient := httpClient }

def WithBearerToken (token : String) : TwitchClientOption :=
  fun cl => { cl with Token := token }

/-- The zero value `http.Client{}`. -/
def defaultClient : HttpClient := { Transport := none }

def NewTwitchClient (opts : List TwitchClientOption) : TwitchClient :=
  let defaultID := ""
  let defaultToken := ""
  let cl : TwitchClient :=
    { HttpClient := some defaultClient, ClientID := defaultID, Token := defaultToken }
  opts.foldl (fun cl opt => opt cl) cl

/-- Lines 82-102 of `getRequest`: the `url.Values` of the built-in
parameters. -/
def builtinValues (options : RequestOptions) : Values :=
  let v : Values := []
  let v := if options.Direction ≠ "" then v.Add "direction" options.Direction else v
  let v := if options.Limit ≠ 0 then v.Add "limit" (formatInt options.Limit) else v
  let v := if options.Offset ≠ 0 then v.Add "offset" (formatInt options.Offset) else v
  let v := if options.Nonce ≠ 0 then v.Add "_" (formatInt options.Nonce) else v
  let v := if options.Channel ≠ "" then v.Add "channel" options.Channel else v
  v

/-- Lines 73-115 of `getRequest`: `targetUrl` and `targetVersion`. -/
def buildTarget (endpoint : String) (options : Option RequestOptions) : String × String :=
  let targetUrl := baseUrl ++ endpoint
  let targetVersion := "3"
  match options with
  | none => (targetUrl, targetVersion)
  | some options =>
    let (targetUrl, targetVersion) :=
      if options.Version = "helix" then (helixBaseUrl ++ endpoint, "5")
      else (targetUrl, targetVersion)
    let v := builtinValues options
    let targetUrl := if v.length ≠ 0 then targetUrl ++ ("?" ++ v.Encode) else targetUrl
    let targetUrl :=
      match options.Extra with
      | some extra =>
        if v.length ≠ 0 then targetUrl ++ ("&" ++ extra.Encode)
        else targetUrl ++ ("?" ++ extra.Encode)
      | none => targetUrl
    (targetUrl, targetVersion)

/-- Lines 117-123 of `getRequest`: the request with its headers; `none` when
`http.NewRequest` returned the nil request. -/
def buildRequest {T : Type} (env : Env T) (client : TwitchClient) (endpoint : String)
    (options : Option RequestOptions) : Option Request :=
  let (targetUrl, targetVersion) := buildTarget endpoint options
  match NewRequest env "GET" targetUrl with
  | none => none
  | some req =>
    let accept := "application/vnd.twitchtv.v" ++ targetVersion ++ "+json"
    let req := { req with Header := req.Header.Set "Accept" accept }
    let req := { req with Header := req.Header.Set "Client-ID" client.ClientID }
    let req :=
      if client.Token.length > 0 then
        { req with Header := req.Header.Set "Authorization" ("Bearer " ++ client.Token) }
      else req
    some req

/-- What a call does to the outside, in order. -/
inductive Event where
  | Do (req : Request)
  | ReadAll
  | Unmarshal (body : String)
  | Close
deriving DecidableEq

/-- How a call ends: a nil error, a non-nil error, or a run-time panic. -/
inductive Outcome where
  | nil
  | error (err : GoError)
  | panic
deriving DecidableEq

/-- A finished call: how it ended, the caller's target afterwards, and what it
did to the outside. -/
structure Result (T : Type) where
  outcome : Outcome
  out : T
  trace : List Event

/-- The method `getRequest`.  The error of `http.NewRequest` is dropped, so a
nil request is dereferenced at `req.Header.Set` (line 118); a nil
`client.HttpClient` is dereferenced inside `Do`.  `defer res.Body.Close()`
runs last on every path that has a response. -/
def getRequest {T : Type} (env : Env T) (client : TwitchClient) (endpoint : String)
    (options : Option RequestOptions) (out : T) : Result T :=
  match buildRequest env client endpoint options with
  | none => { outcome := .panic, out := out, trace := [] }
  | some req =>
    match client.HttpClient with
    | none => { outcome := .panic, out := out, trace := [] }
    | some httpClient =>
      match httpClient.Do env req with
      | .error err => { outcome := .error err, out := out, trace := [.Do req] }
      | .ok res =>
        if res.StatusCode ≠ StatusOK then
          { outcome := .error (statusError res.StatusCode), out := out,
            trace := [.Do req, .Close] }
        else
          let (body, _) := ReadAll res.Body
          match env.Unmarshal body out with
          | (out, some err) =>
            { outcome := .error err, out := out,
              trace := [.Do req, .ReadAll, .Unmarshal body, .Close] }
          | (out, none) =>
            { outcome := .nil, out := out,
              trace := [.Do req, .ReadAll, .Unmarshal body, .Close] }

/-! ## Definitions used by the statements

The pairs a `url.Values` encodes, the built-in parameters in the order they are
written, the segments of a query, and the three options of the package as
data. -/

/-- The pairs `key=value` that `Encode` writes, escaped, in the order it writes
them: keys ascending, the values of one key in the order they were added. -/
def Values.pairs (v : Values) : List String :=
  (sortStrings v.keys).flatMap
    (fun k => (v.Get k).map (fun value => QueryEscape k ++ "=" ++ QueryEscape value))

/-- Write one pair to the buffer, after `&` when the buffer holds something. -/
def writePair (buf p : String) : String :=
  (if buf.length > 0 then buf ++ "&" else buf) ++ p

/-- The characters of a signed decimal. -/
def decimalChars : List Char := ['0', '1', '2', '3', '4', '5', '6', '7', '8', '9', '-']

/-- The built-in parameters that are present, each as `key=value`, in ascending
order of their keys: `_`, `channel`, `direction`, `limit`, `offset`. -/
def presentParams (o : RequestOptions) : List String :=
  (if o.Nonce ≠ 0 then ["_=" ++ formatInt o.Nonce] else []) ++
  (if o.Channel ≠ "" then ["channel=" ++ QueryEscape o.Channel] else []) ++
  (if o.Direction ≠ "" then ["direction=" ++ QueryEscape o.Direction] else []) ++
  (if o.Limit ≠ 0 then ["limit=" ++ formatInt o.Limit] else []) ++
  (if o.Offset ≠ 0 then ["offset=" ++ formatInt o.Offset] else [])

/-- The query string in the order the source adds the parameters (direction,
limit, offset, nonce, channel), each as `name=value` with the value as given. -/
def queryInAddOrder (o : RequestOptions) : String :=
  "&".intercalate
    ((if o.Direction ≠ "" then ["direction=" ++ o.Direction] else []) ++
     (if o.Limit ≠ 0 then ["limit=" ++ formatInt o.Limit] else []) ++
     (if o.Offset ≠ 0 then ["offset=" ++ formatInt o.Offset] else []) ++
     (if o.Nonce ≠ 0 then ["_=" ++ formatInt o.Nonce] else []) ++
     (if o.Channel ≠ "" then ["channel=" ++ o.Channel] else []))

/-- The segments of a query between its `&`, as `url.ParseQuery` cuts them. -/
def segments : List Char → List (List Char)
  | [] => [[]]
  | c :: cs =>
    if c = '&' then [] :: segments cs
    else
      match segments cs with
      | s :: ss => (c :: s) :: ss
      | [] => [[c]]

/-- The pairs `url.ParseQuery` reads from a query: the segments between the
`&`, an empty segment being skipped. -/
def querySegments (q : String) : List String :=
  ((segments q.data).filter (fun s => !s.isEmpty)).map String.mk

/-- One of the three options of the package, by the field it sets. -/
inductive ClientSetting where
  | clientID (id : String)
  | httpClient (hc : Option HttpClient)
  | bearerToken (tok : String)

/-- The option a setting stands for. -/
def ClientSetting.toOption (s : ClientSetting) : TwitchClientOption :=
  match s with
  | .clientID id => WithClientID id
  | .httpClient hc => WithHTTPClient hc
  | .bearerToken tok => WithBearerToken tok

/-- The client ID the setting gives, if it sets the client ID. -/
def ClientSetting.clientID? (s : ClientSetting) : Option String :=
  match s with
  | .clientID id => some id
  | .httpClient _ => none
  | .bearerToken _ => none

/-- The HTTP client the setting gives, if it sets the HTTP client. -/
def ClientSetting.httpClient? (s : ClientSetting) : Option (Option HttpClient) :=
  match s with
  | .clientID _ => none
  | .httpClient hc => some hc
  | .bearerToken _ => none

/-- The token the setting gives, if it sets the token. -/
def ClientSetting.token? (s : ClientSetting) : Option String :=
  match s with
  | .clientID _ => none
  | .httpClient _ => none
  | .bearerToken tok => some tok

/-! ## Sample inputs -/

/-- Options whose fields are all zero, with `Extra` nil. -/
def zeroOptions : RequestOptions :=
  { Limit := 0, Offset := 0, Direction := "", Nonce := 0, Channel := "", Version := "",
    Extra := none }

/-- Options whose fields are all zero, with `Extra` present and holding no entry. -/
def emptyExtraOptions : RequestOptions :=
  { Limit := 0, Offset := 0, Direction := "", Nonce := 0, Channel := "", Version := "",
    Extra := some [] }

/-- Options with a channel filter next to the limit. -/
def channelOptions : RequestOptions :=
  { Limit := 15, Offset := 0, Direction := "", Nonce := 0, Channel := "a b", Version := "",
    Extra := none }

/-- Options with every built-in parameter set, a negative limit among them. -/
def fullOptions : RequestOptions :=
  { Limit := -3, Offset := 10, Direction := "asc", Nonce := 7, Channel := "a b",
    Version := "helix", Extra := none }

/-- The options of the `followers` command of the CLI, `RequestOptions{Limit: 15}`,
on the `helix` API. -/
def helixOptions : RequestOptions :=
  { Limit := 15, Offset := 0, Direction := "", Nonce := 0, Channel := "", Version := "helix",
    Extra := none }

/-- Options with a limit and two extra parameters. -/
def extraOptions : RequestOptions :=
  { Limit := 15, Offset := 0, Direction := "", Nonce := 0, Channel := "", Version := "",
    Extra := some [("game", ["a&b"]), ("cursor", ["x", "y"])] }

/-- Go's `ishex`. -/
def ishex (c : Char) : Bool :=
  ('0' ≤ c && c ≤ '9') || ('a' ≤ c && c ≤ 'f') || ('A' ≤ c && c ≤ 'F')

/-- Whether every `%` is followed by two hexadecimal digits: one of the checks
of `url.Parse`, which fails with `invalid URL escape` otherwise. -/
def validEscapes : List Char → Bool
  | [] => true
  | c :: rest =>
    if c = '%' then
      match rest with
      | a :: b :: rest => ishex a && ishex b && validEscapes rest
      | _ => false
    else validEscapes rest

/-- A `json.Unmarshal` into a string target that accepts the body `{}` alone. -/
def sampleUnmarshal (body : String) (out : String) : String × Option GoError :=
  if body = "\x7b\x7d" then (body, none) else (out, some ⟨"unexpected end of JSON input"⟩)

/-- A world whose default transport answers every request with the given status
and body, and in which a URL parses when its escapes are valid. -/
def sampleEnv (status : Int) (body : String) : Env String :=
  { validURL := fun url => validEscapes url.data
    DefaultTransport := fun _ => .ok { StatusCode := status, Body := ⟨body, none⟩ }
    Unmarshal := sampleUnmarshal }

/-! ## Strings -/

theorem length_pos_iff_ne_empty (s : String) : s.length > 0 ↔ s ≠ "" := by
  cases s with
  | mk d =>
    cases d with
    | nil => simp [String.length]
    | cons c cs =>
      simp only [String.length, List.length_cons, gt_iff_lt, Nat.zero_lt_succ, true_iff]
      intro h
      have := congrArg String.data h
      simp at this

theorem empty_append (s : String) : "" ++ s = s := by
  apply String.ext; simp [String.data_append]

theorem append_empty (s : String) : s ++ "" = s := by
  apply String.ext; simp [String.data_append]

theorem intercalate_go_eq (sep : String) (l : List String) (acc : String) :
    String.intercalate.go acc sep l = l.foldl (fun a x => a ++ sep ++ x) acc := by
  induction l generalizing acc with
  | nil => rfl
  | cons x xs ih => simp [String.intercalate.go, ih]

theorem foldl_sep_append (sep : String) (l : List String) (a b : String) :
    l.foldl (fun a x => a ++ sep ++ x) (a ++ b) = a ++ l.foldl (fun a x => a ++ sep ++ x) b := by
  induction l generalizing b with
  | nil => rfl
  | cons x xs ih =>
    simp only [List.foldl_cons]
    rw [String.append_assoc a b sep, String.append_assoc a (b ++ sep) x, ih]

theorem intercalate_singleton (sep x : String) : sep.intercalate [x] = x := rfl

theorem intercalate_cons_cons (sep x y : String) (l : List String) :
    sep.intercalate (x :: y :: l) = x ++ sep ++ sep.intercalate (y :: l) := by
  simp only [String.intercalate, intercalate_go_eq, List.foldl_cons]
  rw [String.append_assoc x sep y, foldl_sep_append, String.append_assoc x sep]
  rw [foldl_sep_append]

theorem intercalate_append (sep : String) (l₁ l₂ : List String) (h₁ : l₁ ≠ []) (h₂ : l₂ ≠ []) :
    sep.intercalate (l₁ ++ l₂) = sep.intercalate l₁ ++ sep ++ sep.intercalate l₂ := by
  induction l₁ with
  | nil => exact absurd rfl h₁
  | cons x xs ih =>
    cases xs with
    | nil =>
      cases l₂ with
      | nil => exact absurd rfl h₂
      | cons y ys => simp [intercalate_cons_cons, intercalate_singleton]
    | cons x' xs' =>
      have := ih (by simp)
      simp only [List.cons_append] at this ⊢
      rw [intercalate_cons_cons, this, intercalate_cons_cons]
      simp [String.append_assoc]

/-! ## `Values.Encode` -/

theorem encodeStep_eq (k buf value : String) :
    encodeStep k buf value = writePair buf (k ++ "=" ++ QueryEscape value) := by
  simp [encodeStep, writePair, String.append_assoc]

theorem pair_ne_empty (k value : String) : k ++ "=" ++ value ≠ "" := by
  intro h
  have := congrArg String.length h
  simp [String.length_append] at this
  have h2 : "=".length = 1 := rfl
  have h3 : "".length = 0 := rfl
  omega

theorem writePair_ne_empty (buf p : String) (hp : p ≠ "") : writePair buf p ≠ "" := by
  intro h
  have := congrArg String.length h
  have hp' := (length_pos_iff_ne_empty p).2 hp
  have h3 : "".length = 0 := rfl
  unfold writePair at this
  split at this <;> simp [String.length_append] at this <;> omega

theorem foldl_writePair (ps : List String) (hne : ∀ p ∈ ps, p ≠ "") (buf : String) :
    ps.foldl writePair buf =
      if buf = "" then "&".intercalate ps
      else if ps = [] then buf else buf ++ "&" ++ "&".intercalate ps := by
  induction ps generalizing buf with
  | nil => by_cases hb : buf = "" <;> simp [hb]; rfl
  | cons p ps ih =>
    have hp : p ≠ "" := hne p (by simp)
    have hps : ∀ q ∈ ps, q ≠ "" := fun q hq => hne q (by simp [hq])
    rw [List.foldl_cons, ih hps, if_neg (writePair_ne_empty buf p hp)]
    by_cases hb : buf = ""
    · subst hb
      have e : writePair "" p = p := by
        simp [writePair, empty_append]
      rw [e]
      cases ps with
      | nil => simp [intercalate_singleton]
      | cons q qs => simp [intercalate_cons_cons]
    · have e : writePair buf p = buf ++ "&" ++ p := by
        simp [writePair, (length_pos_iff_ne_empty buf).2 hb]
      rw [e]
      cases ps with
      | nil => simp [hb, intercalate_singleton]
      | cons q qs => simp [hb, intercalate_cons_cons, String.append_assoc]

theorem foldl_encodeStep (k : String) (vs : List String) (buf : String) :
    vs.foldl (encodeStep k) buf =
      (vs.map (fun value => k ++ "=" ++ QueryEscape value)).foldl writePair buf := by
  induction vs generalizing buf with
  | nil => rfl
  | cons x xs ih => simp [List.foldl_cons, ih, encodeStep_eq]

theorem foldl_keys (v : Values) (keys : List String) (buf : String) :
    keys.foldl (fun buf k => (v.Get k).foldl (encodeStep (QueryEscape k)) buf) buf =
      (keys.flatMap
        (fun k => (v.Get k).map (fun value => QueryEscape k ++ "=" ++ QueryEscape value))).foldl
        writePair buf := by
  induction keys generalizing buf with
  | nil => rfl
  | cons k ks ih =>
    rw [List.foldl_cons, ih, List.flatMap_cons, List.foldl_append, foldl_encodeStep]

theorem pairs_ne_empty (v : Values) : ∀ p ∈ v.pairs, p ≠ "" := by
  intro p hp
  simp only [Values.pairs, List.mem_flatMap, List.mem_map] at hp
  obtain ⟨k, _, value, _, rfl⟩ := hp
  exact pair_ne_empty _ _

/-- `Encode` writes the pairs of the map joined by `&`. -/
theorem Encode_eq_intercalate (v : Values) : v.Encode = "&".intercalate v.pairs := by
  unfold Values.Encode
  split
  · next h =>
    have : v = [] := List.length_eq_zero.mp h
    subst this
    rfl
  · rw [foldl_keys]
    exact (foldl_writePair v.pairs (pairs_ne_empty v) "").trans (if_pos rfl)

theorem intercalate_eq_empty_iff (ps : List String) (hne : ∀ p ∈ ps, p ≠ "") :
    "&".intercalate ps = "" ↔ ps = [] := by
  constructor
  · intro h
    cases ps with
    | nil => rfl
    | cons p qs =>
      exfalso
      have hp : p ≠ "" := hne p (by simp)
      have hp' := (length_pos_iff_ne_empty p).2 hp
      have h3 : "".length = 0 := rfl
      cases qs with
      | nil => exact hp (by simpa [intercalate_singleton] using h)
      | cons q qs =>
        rw [intercalate_cons_cons] at h
        have := congrArg String.length h
        simp [String.length_append] at this
        omega
  · intro h; subst h; rfl

/-! ## Decimal text needs no escaping -/

theorem escape_decimalChar :
    ∀ c ∈ decimalChars,
      ((String.utf8EncodeChar c).map UInt8.toNat).flatMap escapeByte = [c] := by
  decide

theorem digitChar_mem (n : Nat) (h : n < 10) : Nat.digitChar n ∈ decimalChars := by
  interval_cases n <;> decide

theorem toDigitsCore_mem (fuel n : Nat) (ds : List Char) (hds : ∀ c ∈ ds, c ∈ decimalChars) :
    ∀ c ∈ Nat.toDigitsCore 10 fuel n ds, c ∈ decimalChars := by
  induction fuel generalizing n ds with
  | zero => simpa [Nat.toDigitsCore] using hds
  | succ fuel ih =>
    have hd : Nat.digitChar (n % 10) ∈ decimalChars := digitChar_mem _ (Nat.mod_lt _ (by decide))
    have hcons : ∀ c ∈ Nat.digitChar (n % 10) :: ds, c ∈ decimalChars := by
      intro c hc
      rcases List.mem_cons.mp hc with rfl | hc
      · exact hd
      · exact hds c hc
    unfold Nat.toDigitsCore
    simp only
    split
    · exact hcons
    · exact ih _ _ hcons

theorem repr_mem (n : Nat) : ∀ c ∈ (Nat.repr n).data, c ∈ decimalChars := by
  intro c hc
  exact toDigitsCore_mem _ _ [] (by simp) c (by simpa [Nat.repr, Nat.toDigits, List.asString] using hc)

theorem formatInt_mem (n : Int) : ∀ c ∈ (formatInt n).data, c ∈ decimalChars := by
  intro c hc
  unfold formatInt at hc
  split at hc
  · rw [String.data_append] at hc
    rcases List.mem_append.mp hc with h | h
    · have : c = '-' := by simpa using h
      subst this; decide
    · exact repr_mem _ c h
  · exact repr_mem _ c hc

theorem QueryEscape_of_decimal (s : String) (h : ∀ c ∈ s.data, c ∈ decimalChars) :
    QueryEscape s = s := by
  cases s with
  | mk d =>
    apply String.ext
    simp only [QueryEscape, utf8Bytes]
    induction d with
    | nil => rfl
    | cons c cs ih =>
      have hc := escape_decimalChar c (h c (by simp))
      have hcs := ih (fun x hx => h x (by simp [hx]))
      simp only [List.flatMap_cons, List.flatMap_append, hc, hcs, List.singleton_append]

/-- The text of `%d` has no byte that `QueryEscape` changes. -/
theorem QueryEscape_formatInt (n : Int) : QueryEscape (formatInt n) = formatInt n :=
  QueryEscape_of_decimal _ (formatInt_mem n)

/-! ## The built-in parameters -/

theorem escape_keys :
    QueryEscape "_" = "_" ∧ QueryEscape "channel" = "channel" ∧
    QueryEscape "direction" = "direction" ∧ QueryEscape "limit" = "limit" ∧
    QueryEscape "offset" = "offset" := by
  decide

set_option maxHeartbeats 1000000 in
theorem builtin_pairs (o : RequestOptions) : (builtinValues o).pairs = presentParams o := by
  obtain ⟨e1, e2, e3, e4, e5⟩ := escape_keys
  unfold builtinValues presentParams Values.pairs
  by_cases h1 : o.Direction = "" <;> by_cases h2 : o.Limit = 0 <;>
  by_cases h3 : o.Offset = 0 <;> by_cases h4 : o.Nonce = 0 <;>
  by_cases h5 : o.Channel = "" <;>
  simp +decide [h1, h2, h3, h4, h5, Values.Add, Values.keys, Values.Get, sortStrings,
    insertSorted, e1, e2, e3, e4, e5, QueryEscape_formatInt, List.lookup]

theorem presentParams_eq_nil_iff (o : RequestOptions) :
    presentParams o = [] ↔
      o.Nonce = 0 ∧ o.Channel = "" ∧ o.Direction = "" ∧ o.Limit = 0 ∧ o.Offset = 0 := by
  unfold presentParams
  by_cases h1 : o.Direction = "" <;> by_cases h2 : o.Limit = 0 <;>
  by_cases h3 : o.Offset = 0 <;> by_cases h4 : o.Nonce = 0 <;>
  by_cases h5 : o.Channel = "" <;> simp [h1, h2, h3, h4, h5]

theorem builtin_length (o : RequestOptions) :
    (builtinValues o).length ≠ 0 ↔ presentParams o ≠ [] := by
  rw [Ne, Ne, presentParams_eq_nil_iff]
  unfold builtinValues
  by_cases h1 : o.Direction = "" <;> by_cases h2 : o.Limit = 0 <;>
  by_cases h3 : o.Offset = 0 <;> by_cases h4 : o.Nonce = 0 <;>
  by_cases h5 : o.Channel = "" <;>
  simp +decide [h1, h2, h3, h4, h5, Values.Add]

/-- The built-in query string is the present parameters joined by `&`. -/
theorem builtin_Encode (o : RequestOptions) :
    (builtinValues o).Encode = "&".intercalate (presentParams o) := by
  rw [Encode_eq_intercalate, builtin_pairs]

theorem presentParams_ne_empty (o : RequestOptions) : ∀ p ∈ presentParams o, p ≠ "" := by
  rw [← builtin_pairs]; exact pairs_ne_empty _

theorem builtin_Encode_eq_empty_iff (o : RequestOptions) :
    (builtinValues o).Encode = "" ↔ presentParams o = [] := by
  rw [builtin_Encode, intercalate_eq_empty_iff _ (presentParams_ne_empty o)]

/-- The URL of lines 73-115 for non-nil options, in one expression. -/
theorem buildTarget_url (endpoint : String) (o : RequestOptions) :
    (buildTarget endpoint (some o)).1 =
      (if o.Version = "helix" then helixBaseUrl else baseUrl) ++ endpoint ++
        (if presentParams o = [] then "" else "?" ++ "&".intercalate (presentParams o)) ++
        (match o.Extra with
          | none => ""
          | some extra => (if presentParams o = [] then "?" else "&") ++ extra.Encode) := by
  have hlen := builtin_length o
  have henc := builtin_Encode o
  unfold buildTarget
  by_cases hv : o.Version = "helix" <;> by_cases hp : presentParams o = [] <;>
    cases hx : o.Extra <;>
    simp [hv, hp, hx, hlen, henc, append_empty, String.append_assoc]

theorem buildTarget_version (endpoint : String) (o : RequestOptions) :
    (buildTarget endpoint (some o)).2 = if o.Version = "helix" then "5" else "3" := by
  unfold buildTarget
  by_cases hv : o.Version = "helix" <;> simp [hv]

/-! ## The query string -/

theorem prefixed_ne (c d : Char) (hcd : c ≠ d) (p q a b : String)
    (hp : p.data.head? = some c) (hq : q.data.head? = some d) : p ++ a ≠ q ++ b := by
  intro h
  have h' := congrArg (fun s => s.data.head?) h
  simp only [String.data_append] at h'
  cases hpd : p.data with
  | nil => simp [hpd] at hp
  | cons x xs =>
    cases hqd : q.data with
    | nil => simp [hqd] at hq
    | cons y ys =>
      simp [hpd, hqd] at hp hq h'
      exact hcd (by rw [← hp, ← hq, h'])

theorem limit_count (o : RequestOptions) (h : o.Limit ≠ 0) :
    (presentParams o).count ("limit=" ++ formatInt o.Limit) = 1 := by
  have n1 : ∀ a b, ("_=" ++ a == "limit=" ++ b) = false := fun a b =>
    beq_false_of_ne (prefixed_ne '_' 'l' (by decide) _ _ a b rfl rfl)
  have n2 : ∀ a b, ("channel=" ++ a == "limit=" ++ b) = false := fun a b =>
    beq_false_of_ne (prefixed_ne 'c' 'l' (by decide) _ _ a b rfl rfl)
  have n3 : ∀ a b, ("direction=" ++ a == "limit=" ++ b) = false := fun a b =>
    beq_false_of_ne (prefixed_ne 'd' 'l' (by decide) _ _ a b rfl rfl)
  have n4 : ∀ a b, ("offset=" ++ a == "limit=" ++ b) = false := fun a b =>
    beq_false_of_ne (prefixed_ne 'o' 'l' (by decide) _ _ a b rfl rfl)
  unfold presentParams
  by_cases h1 : o.Direction = "" <;>
  by_cases h3 : o.Offset = 0 <;> by_cases h4 : o.Nonce = 0 <;>
  by_cases h5 : o.Channel = "" <;>
  simp [h, h1, h3, h4, h5, List.count_cons, n1, n2, n3, n4]

/-- C2, as the claim words it, fails: with a limit and a channel the code
writes `channel=...` before `limit=...`, and escapes the channel. -/
theorem query_not_in_add_order :
    (builtinValues channelOptions).Encode = "channel=a+b&limit=15" ∧
    queryInAddOrder channelOptions = "limit=15&channel=a b" ∧
    (builtinValues channelOptions).Encode ≠ queryInAddOrder channelOptions := by
  decide

/-- C2, amended: the query string of the built-in parameters holds exactly the
parameters whose option is non-empty or non-zero, each once as `name=value`,
integers in decimal and strings query-escaped, joined by `&` in ascending order
of the names (`_`, `channel`, `direction`, `limit`, `offset`); a non-zero limit
`n` contributes `limit=n` exactly once. -/
theorem query_params_sorted (o : RequestOptions) :
    (builtinValues o).Encode = "&".intercalate (presentParams o) ∧
    presentParams o =
      (if o.Nonce ≠ 0 then ["_=" ++ formatInt o.Nonce] else []) ++
      (if o.Channel ≠ "" then ["channel=" ++ QueryEscape o.Channel] else []) ++
      (if o.Direction ≠ "" then ["direction=" ++ QueryEscape o.Direction] else []) ++
      (if o.Limit ≠ 0 then ["limit=" ++ formatInt o.Limit] else []) ++
      (if o.Offset ≠ 0 then ["offset=" ++ formatInt o.Offset] else []) ∧
    (o.Limit ≠ 0 → (presentParams o).count ("limit=" ++ formatInt o.Limit) = 1) :=
  ⟨builtin_Encode o, rfl, limit_count o⟩

/-- C2, amended, at the options `{Limit: 15, Channel: "a b"}`. -/
theorem query_params_sorted_witness :
    (builtinValues channelOptions).Encode = "channel=a+b&limit=15" ∧
    (presentParams channelOptions).count "limit=15" = 1 :=
  ⟨(query_params_sorted channelOptions).1.trans (by decide),
   (query_params_sorted channelOptions).2.2 (by decide)⟩

/-- C10: for non-nil options with `Extra` nil, the URL is the selected base URL,
the endpoint, and, only when a built-in parameter is present, `?` followed by
the present parameters as `key=value` joined by `&` in ascending order of the
keys, strings query-escaped and integers in signed decimal; a negative limit is
written, not omitted. -/
theorem url_without_extra (endpoint : String) (o : RequestOptions) (h : o.Extra = none) :
    (buildTarget endpoint (some o)).1 =
      (if o.Version = "helix" then helixBaseUrl else baseUrl) ++ endpoint ++
        (if presentParams o = [] then ""
         else "?" ++ "&".intercalate (presentParams o)) ∧
    (o.Limit < 0 → "limit=-" ++ Nat.repr o.Limit.natAbs ∈ presentParams o) := by
  constructor
  · rw [buildTarget_url, h]
    simp [append_empty]
  · intro hneg
    have hne : o.Limit ≠ 0 := by omega
    have e : "limit=" ++ formatInt o.Limit = "limit=-" ++ Nat.repr o.Limit.natAbs := by
      simp [formatInt, hneg, ← String.append_assoc]
    rw [← e]
    unfold presentParams
    simp [hne]

/-- C10 at options with every built-in parameter set and a negative limit. -/
theorem url_without_extra_witness :
    fullOptions.Extra = none ∧
    (buildTarget "/channels/42/follows" (some fullOptions)).1 =
      "https://api.twitch.tv/helix/channels/42/follows?_=7&channel=a+b&direction=asc&limit=-3&offset=10" ∧
    "limit=-3" ∈ presentParams fullOptions :=
  ⟨rfl, (url_without_extra "/channels/42/follows" fullOptions rfl).1.trans (by decide),
   (url_without_extra "/channels/42/follows" fullOptions rfl).2 (by decide)⟩

/-! ## Reading a query back -/

theorem segments_ne_nil (l : List Char) : segments l ≠ [] := by
  cases l with
  | nil => simp [segments]
  | cons c cs =>
    unfold segments
    split
    · simp
    · split <;> simp

theorem segments_of_no_amp (a : List Char) (ha : '&' ∉ a) : segments a = [a] := by
  induction a with
  | nil => rfl
  | cons c cs ih =>
    have hc : c ≠ '&' := fun h => ha (by simp [h])
    have hcs : '&' ∉ cs := fun h => ha (by simp [h])
    simp [segments, hc, ih hcs]

theorem segments_append_amp (a b : List Char) (ha : '&' ∉ a) :
    segments (a ++ '&' :: b) = a :: segments b := by
  induction a with
  | nil => simp [segments]
  | cons c cs ih =>
    have hc : c ≠ '&' := fun h => ha (by simp [h])
    have hcs : '&' ∉ cs := fun h => ha (by simp [h])
    simp [segments, hc, ih hcs]

theorem segments_snoc_amp (l : List Char) : segments (l ++ ['&']) = segments l ++ [[]] := by
  induction l with
  | nil => simp [segments]
  | cons c cs ih =>
    by_cases hc : c = '&'
    · simp [segments, hc, ih]
    · cases hs : segments cs with
      | nil => exact absurd hs (segments_ne_nil cs)
      | cons s ss => simp [segments, hc, ih, hs]

theorem segments_intercalate (ps : List String) (hne : ps ≠ [])
    (hamp : ∀ p ∈ ps, '&' ∉ p.data) :
    segments ("&".intercalate ps).data = ps.map String.data := by
  induction ps with
  | nil => exact absurd rfl hne
  | cons p qs ih =>
    have hp : '&' ∉ p.data := hamp p (by simp)
    cases qs with
    | nil => simp [intercalate_singleton, segments_of_no_amp _ hp]
    | cons q qs =>
      have hrest := ih (by simp) (fun x hx => hamp x (by simp [hx]))
      rw [intercalate_cons_cons]
      have e : (p ++ "&" ++ "&".intercalate (q :: qs)).data =
          p.data ++ '&' :: ("&".intercalate (q :: qs)).data := by
        simp [String.data_append]
      rw [e, segments_append_amp _ _ hp, hrest]
      simp

theorem nonempty_segments_of_data (ps : List String) (hne : ∀ p ∈ ps, p ≠ "") :
    ((ps.map String.data).filter (fun s => !s.isEmpty)).map String.mk = ps := by
  induction ps with
  | nil => rfl
  | cons p qs ih =>
    have hp : p.data ≠ [] := by
      intro h
      exact hne p (by simp) (String.ext h)
    have hp' : p.data.isEmpty = false := by
      cases hd : p.data with
      | nil => exact absurd hd hp
      | cons c cs => rfl
    have hrest := ih (fun x hx => hne x (by simp [hx]))
    simp only [List.map_cons, List.filter_cons, hp', Bool.not_false, if_true, hrest]

theorem querySegments_intercalate (ps : List String) (hamp : ∀ p ∈ ps, '&' ∉ p.data)
    (hne : ∀ p ∈ ps, p ≠ "") : querySegments ("&".intercalate ps) = ps := by
  unfold querySegments
  cases ps with
  | nil => rfl
  | cons p qs =>
    rw [segments_intercalate _ (by simp) hamp]
    exact nonempty_segments_of_data _ hne

theorem querySegments_dangling (ps : List String) (hamp : ∀ p ∈ ps, '&' ∉ p.data)
    (hne : ∀ p ∈ ps, p ≠ "") : querySegments ("&".intercalate ps ++ "&") = ps := by
  have h := querySegments_intercalate ps hamp hne
  unfold querySegments at h ⊢
  have e : ("&".intercalate ps ++ "&").data = ("&".intercalate ps).data ++ ['&'] := by
    simp [String.data_append]
  rw [e, segments_snoc_amp, List.filter_append, List.map_append, h]
  simp

theorem upperhex_ne_amp (n : Nat) : upperhex n ≠ '&' := by
  by_cases hn : n < 16
  · interval_cases n <;> decide
  · have : "0123456789ABCDEF".data.length ≤ n := by
      have : "0123456789ABCDEF".data.length = 16 := rfl
      omega
    unfold upperhex
    rw [List.getD_eq_default _ _ this]
    decide

theorem unescaped_ne_amp : ∀ b, b < 128 → shouldEscape b = false → Char.ofNat b ≠ '&' := by
  decide

theorem escapeByte_no_amp (b : Nat) : '&' ∉ escapeByte b := by
  unfold escapeByte
  split
  · decide
  · split
    · intro h
      simp only [List.mem_cons, List.mem_singleton, List.not_mem_nil, or_false] at h
      rcases h with h | h | h
      · exact absurd h (by decide)
      · exact upperhex_ne_amp _ h.symm
      · exact upperhex_ne_amp _ h.symm
    · next hs =>
      have hs' : shouldEscape b = false := by simpa using hs
      have hb : b < 128 := by
        by_contra hge
        have : shouldEscape b = true := by
          unfold shouldEscape
          simp
          omega
        rw [this] at hs'
        cases hs'
      intro h
      simp only [List.mem_singleton] at h
      exact unescaped_ne_amp b hb hs' h.symm

theorem QueryEscape_no_amp (s : String) : '&' ∉ (QueryEscape s).data := by
  simp only [QueryEscape, List.mem_flatMap, not_exists, not_and]
  intro b _
  exact escapeByte_no_amp b

theorem pairs_no_amp (v : Values) : ∀ p ∈ v.pairs, '&' ∉ p.data := by
  intro p hp
  simp only [Values.pairs, List.mem_flatMap, List.mem_map] at hp
  obtain ⟨k, _, value, _, rfl⟩ := hp
  have h1 := QueryEscape_no_amp k
  have h2 := QueryEscape_no_amp value
  have h3 : "=".data = ['='] := rfl
  simp [String.data_append, h1, h2, h3]

/-- C7: with `Extra` present, the encoded `Extra` follows the built-in query
string, after `&` when the built-in query string is non-empty and after `?`,
directly behind the endpoint, when it is empty; the result is a query that
reads back, segment by segment, as the built-in pairs followed by the pairs of
`Extra`, and when `Extra` holds a pair it is exactly these pairs joined by `&`. -/
theorem extra_appended (endpoint : String) (o : RequestOptions) (extra : Values)
    (h : o.Extra = some extra) :
    (buildTarget endpoint (some o)).1 =
      (if o.Version = "helix" then helixBaseUrl else baseUrl) ++ endpoint ++
        (if (builtinValues o).Encode ≠ "" then
           "?" ++ (builtinValues o).Encode ++ "&" ++ extra.Encode
         else "?" ++ extra.Encode) ∧
    (∃ query,
      (buildTarget endpoint (some o)).1 =
        (if o.Version = "helix" then helixBaseUrl else baseUrl) ++ endpoint ++
          "?" ++ query ∧
      querySegments query = presentParams o ++ extra.pairs) ∧
    (extra.pairs ≠ [] →
      (buildTarget endpoint (some o)).1 =
        (if o.Version = "helix" then helixBaseUrl else baseUrl) ++ endpoint ++
          "?" ++ "&".intercalate (presentParams o ++ extra.pairs)) := by
  have hurl := buildTarget_url endpoint o
  rw [h] at hurl
  simp only at hurl
  have hjoin : extra.pairs ≠ [] →
      (buildTarget endpoint (some o)).1 =
        (if o.Version = "helix" then helixBaseUrl else baseUrl) ++ endpoint ++
          "?" ++ "&".intercalate (presentParams o ++ extra.pairs) := by
    intro hx
    rw [hurl, Encode_eq_intercalate]
    by_cases hp : presentParams o = []
    · simp [hp, append_empty, String.append_assoc]
    · rw [intercalate_append _ _ _ hp hx]
      simp [hp, String.append_assoc]
  have hamp : ∀ p ∈ presentParams o ++ extra.pairs, '&' ∉ p.data := by
    intro p hp
    rcases List.mem_append.mp hp with hp | hp
    · rw [← builtin_pairs] at hp
      exact pairs_no_amp _ p hp
    · exact pairs_no_amp _ p hp
  have hne : ∀ p ∈ presentParams o ++ extra.pairs, p ≠ "" := by
    intro p hp
    rcases List.mem_append.mp hp with hp | hp
    · exact presentParams_ne_empty o p hp
    · exact pairs_ne_empty _ p hp
  refine ⟨?_, ?_, hjoin⟩
  · rw [hurl]
    by_cases hp : presentParams o = []
    · have he := (builtin_Encode_eq_empty_iff o).2 hp
      simp [hp, he, append_empty, String.append_assoc]
    · have he : (builtinValues o).Encode ≠ "" := fun hc =>
        hp ((builtin_Encode_eq_empty_iff o).1 hc)
      rw [if_pos he, if_neg hp, if_neg hp, builtin_Encode]
      simp [String.append_assoc]
  · by_cases hx : extra.pairs = []
    · refine ⟨"&".intercalate (presentParams o) ++
          (if presentParams o = [] then "" else "&"), ?_, ?_⟩
      · have he : extra.Encode = "" := by
          rw [Encode_eq_intercalate, hx]; rfl
        rw [hurl, he]
        by_cases hp : presentParams o = []
        · have hi : "&".intercalate ([] : List String) = "" := rfl
          simp [hp, hi, append_empty, String.append_assoc]
        · simp [hp, append_empty, String.append_assoc]
      · rw [hx, List.append_nil] at hamp hne ⊢
        by_cases hp : presentParams o = []
        · rw [if_pos hp, append_empty]
          exact querySegments_intercalate _ hamp hne
        · rw [if_neg hp]
          exact querySegments_dangling _ hamp hne
    · exact ⟨_, hjoin hx, querySegments_intercalate _ hamp hne⟩

/-- C7 at options with a limit and two extra parameters. -/
theorem extra_appended_witness :
    extraOptions.Extra = some [("game", ["a&b"]), ("cursor", ["x", "y"])] ∧
    (buildTarget "/streams" (some extraOptions)).1 =
      "https://api.twitch.tv/kraken/streams?limit=15&cursor=x&cursor=y&game=a%26b" :=
  ⟨rfl, ((extra_appended "/streams" extraOptions _ rfl).2.2 (by decide)).trans (by decide)⟩

/-- C8, as the claim words it, fails: with all fields zero and `Extra` present
but holding no entry, the URL ends in `?`. -/
theorem empty_extra_appends_question_mark :
    (buildTarget "/channels/42" (some emptyExtraOptions)).1 =
      "https://api.twitch.tv/kraken/channels/42?" ∧
    (buildTarget "/channels/42" (some emptyExtraOptions)).1 ≠ baseUrl ++ "/channels/42" := by
  decide

/-- C8, amended: when `Limit`, `Offset` and `Nonce` are 0 and `Direction` and
`Channel` are empty, the URL is the base URL followed by the endpoint, with no
`?`, when `Extra` is nil; when `Extra` is present and holds no entry, the URL is
the base URL, the endpoint and a bare `?`. -/
theorem zero_options_url (endpoint : String) (o : RequestOptions)
    (hl : o.Limit = 0) (hf : o.Offset = 0) (hn : o.Nonce = 0)
    (hd : o.Direction = "") (hc : o.Channel = "") :
    (builtinValues o).Encode = "" ∧
    (o.Extra = none →
      (buildTarget endpoint (some o)).1 =
        (if o.Version = "helix" then helixBaseUrl else baseUrl) ++ endpoint) ∧
    (o.Extra = some [] →
      (buildTarget endpoint (some o)).1 =
        (if o.Version = "helix" then helixBaseUrl else baseUrl) ++ endpoint ++ "?") := by
  have hp : presentParams o = [] := (presentParams_eq_nil_iff o).2 ⟨hn, hc, hd, hl, hf⟩
  refine ⟨(builtin_Encode_eq_empty_iff o).2 hp, ?_, ?_⟩
  · intro hx
    rw [buildTarget_url, hx]
    simp [hp, append_empty]
  · intro hx
    rw [buildTarget_url, hx]
    have : Values.Encode [] = "" := rfl
    simp [hp, append_empty, this]

/-- C8, amended, at the all-zero options with `Extra` nil. -/
theorem zero_options_url_witness :
    (buildTarget "/channels/42" (some zeroOptions)).1 = "https://api.twitch.tv/kraken/channels/42" :=
  ((zero_options_url "/channels/42" zeroOptions rfl rfl rfl rfl rfl).2.1 rfl).trans (by decide)

/-! ## The request and its headers -/

/-- The request of lines 117-123 when `http.NewRequest` accepts the URL. -/
theorem buildRequest_of_valid {T : Type} (env : Env T) (client : TwitchClient)
    (endpoint : String) (options : Option RequestOptions)
    (h : env.validURL (buildTarget endpoint options).1 = true) :
    ∃ req, buildRequest env client endpoint options = some req ∧
      req.Method = "GET" ∧
      req.URL = (buildTarget endpoint options).1 ∧
      req.Header.Get "Accept" =
        some ("application/vnd.twitchtv.v" ++ (buildTarget endpoint options).2 ++ "+json") ∧
      req.Header.Get "Client-ID" = some client.ClientID ∧
      (client.Token ≠ "" → req.Header.Get "Authorization" = some ("Bearer " ++ client.Token)) ∧
      (client.Token = "" → ∀ value, ("Authorization", value) ∉ req.Header) := by
  unfold buildRequest NewRequest
  by_cases ht : client.Token = ""
  · have hlen : ¬ client.Token.length > 0 := by
      rw [length_pos_iff_ne_empty]; simpa using ht
    simp +decide [h, hlen, ht, Header.Set, Header.Get, List.lookup]
  · have hlen : client.Token.length > 0 := (length_pos_iff_ne_empty _).2 ht
    simp +decide [h, hlen, ht, Header.Set, Header.Get, List.lookup]

/-- The request that is built is the one handed to the transport. -/
theorem getRequest_dispatches {T : Type} (env : Env T) (client : TwitchClient)
    (endpoint : String) (options : Option RequestOptions) (out : T) (req : Request)
    (httpClient : HttpClient) (hreq : buildRequest env client endpoint options = some req)
    (hc : client.HttpClient = some httpClient) :
    (getRequest env client endpoint options out).trace.head? = some (Event.Do req) := by
  unfold getRequest
  rw [hreq, hc]
  simp only
  cases hdo : httpClient.Do env req with
  | error err => simp
  | ok res =>
    simp only
    split
    · simp
    · simp only [ReadAll]
      split <;> simp

theorem mem_of_Get (h : Header) (key value : String) (hg : h.Get key = some value) :
    (key, value) ∈ h := by
  unfold Header.Get at hg
  induction h with
  | nil => simp at hg
  | cons kv rest ih =>
    obtain ⟨k, v⟩ := kv
    by_cases hk : key = k
    · subst hk
      simp [List.lookup] at hg
      simp [hg]
    · have hk' : (key == k) = false := beq_false_of_ne hk
      simp only [List.lookup, hk'] at hg
      exact List.mem_cons_of_mem _ (ih hg)

/-- C1: when `options.Version` is `"helix"` the URL is `helixBaseUrl + endpoint`
(and the query) and the version `5`; for any other version, the empty one
among them, and for nil options, the URL is `baseUrl + endpoint` (and the
query) and the version `3`.  When `http.NewRequest` accepts the URL, the
request handed to the transport has this URL and the header
`Accept: application/vnd.twitchtv.v5+json` exactly when the version is
`"helix"`, and `application/vnd.twitchtv.v3+json` otherwise. -/
theorem version_selects_target {T : Type} (env : Env T) (client : TwitchClient)
    (endpoint : String) (options : Option RequestOptions) :
    (∀ o, options = some o → o.Version = "helix" →
      (∃ query, (buildTarget endpoint options).1 = helixBaseUrl ++ endpoint ++ query) ∧
      (buildTarget endpoint options).2 = "5") ∧
    (∀ o, options = some o → o.Version ≠ "helix" →
      (∃ query, (buildTarget endpoint options).1 = baseUrl ++ endpoint ++ query) ∧
      (buildTarget endpoint options).2 = "3") ∧
    (options = none → buildTarget endpoint options = (baseUrl ++ endpoint, "3")) ∧
    (env.validURL (buildTarget endpoint options).1 = true →
      ∃ req, buildRequest env client endpoint options = some req ∧
        req.Method = "GET" ∧
        req.URL = (buildTarget endpoint options).1 ∧
        (∀ o, options = some o → o.Version = "helix" →
          req.Header.Get "Accept" = some "application/vnd.twitchtv.v5+json") ∧
        (∀ o, options = some o → o.Version ≠ "helix" →
          req.Header.Get "Accept" = some "application/vnd.twitchtv.v3+json") ∧
        (options = none →
          req.Header.Get "Accept" = some "application/vnd.twitchtv.v3+json") ∧
        (∀ httpClient out, client.HttpClient = some httpClient →
          (getRequest env client endpoint options out).trace.head? =
            some (Event.Do req))) := by
  have hhelix : ∀ o, options = some o → o.Version = "helix" →
      (∃ query, (buildTarget endpoint options).1 = helixBaseUrl ++ endpoint ++ query) ∧
      (buildTarget endpoint options).2 = "5" := by
    intro o ho hv
    subst ho
    have e := buildTarget_url endpoint o
    rw [if_pos hv, String.append_assoc (helixBaseUrl ++ endpoint)] at e
    exact ⟨⟨_, e⟩, by rw [buildTarget_version, if_pos hv]⟩
  have hother : ∀ o, options = some o → o.Version ≠ "helix" →
      (∃ query, (buildTarget endpoint options).1 = baseUrl ++ endpoint ++ query) ∧
      (buildTarget endpoint options).2 = "3" := by
    intro o ho hv
    subst ho
    have e := buildTarget_url endpoint o
    rw [if_neg hv, String.append_assoc (baseUrl ++ endpoint)] at e
    exact ⟨⟨_, e⟩, by rw [buildTarget_version, if_neg hv]⟩
  have hnil : options = none → buildTarget endpoint options = (baseUrl ++ endpoint, "3") := by
    intro ho
    subst ho
    rfl
  refine ⟨hhelix, hother, hnil, ?_⟩
  intro h
  obtain ⟨req, hreq, hm, hurl, hacc, -, -, -⟩ :=
    buildRequest_of_valid env client endpoint options h
  refine ⟨req, hreq, hm, hurl, ?_, ?_, ?_, ?_⟩
  · intro o ho hv
    rw [hacc, (hhelix o ho hv).2]
    rfl
  · intro o ho hv
    rw [hacc, (hother o ho hv).2]
    rfl
  · intro ho
    rw [hacc, hnil ho]
    rfl
  · intro httpClient out hc
    exact getRequest_dispatches env client endpoint options out req httpClient hreq hc

/-- C1 at the `followers` options on the `helix` API: the URL parses, and the
request that is built accepts version 5 at the `helix` base URL. -/
theorem version_selects_target_witness :
    (sampleEnv 200 "\x7b\x7d").validURL
      (buildTarget "/users/follows" (some helixOptions)).1 = true ∧
    ∃ req, buildRequest (sampleEnv 200 "\x7b\x7d") (NewTwitchClient []) "/users/follows"
        (some helixOptions) = some req ∧
      req.URL = "https://api.twitch.tv/helix/users/follows?limit=15" ∧
      req.Header.Get "Accept" = some "application/vnd.twitchtv.v5+json" := by
  refine ⟨by decide, ?_⟩
  obtain ⟨req, hreq, -, hurl, h5, -, -, -⟩ :=
    (version_selects_target (sampleEnv 200 "\x7b\x7d") (NewTwitchClient []) "/users/follows"
      (some helixOptions)).2.2.2 (by decide)
  exact ⟨req, hreq, hurl.trans (by decide), h5 helixOptions rfl rfl⟩

/-- C3: with a non-empty `Token` the request carries the header
`Authorization: Bearer <token>`; with an empty `Token` it has no
`Authorization` header at all.  The request is the one handed to the
transport. -/
theorem authorization_header {T : Type} (env : Env T) (client : TwitchClient)
    (endpoint : String) (options : Option RequestOptions)
    (h : env.validURL (buildTarget endpoint options).1 = true) :
    ∃ req, buildRequest env client endpoint options = some req ∧
      (client.Token ≠ "" →
        req.Header.Get "Authorization" = some ("Bearer " ++ client.Token)) ∧
      (client.Token = "" →
        req.Header.Get "Authorization" = none ∧
        ∀ value, ("Authorization", value) ∉ req.Header) ∧
      (∀ httpClient out, client.HttpClient = some httpClient →
        (getRequest env client endpoint options out).trace.head? = some (Event.Do req)) := by
  obtain ⟨req, hreq, -, -, -, -, hset, hnot⟩ :=
    buildRequest_of_valid env client endpoint options h
  refine ⟨req, hreq, hset, ?_, ?_⟩
  · intro ht
    refine ⟨?_, hnot ht⟩
    cases hg : req.Header.Get "Authorization" with
    | none => rfl
    | some value =>
      exfalso
      refine hnot ht value ?_
      exact mem_of_Get req.Header "Authorization" value hg
  · intro httpClient out hc
    exact getRequest_dispatches env client endpoint options out req httpClient hreq hc

/-- C3 at a client with the token `abc` and at a client without a token. -/
theorem authorization_header_witness :
    (∃ req, buildRequest (sampleEnv 200 "\x7b\x7d") (NewTwitchClient [WithBearerToken "abc"])
        "/channels/42" none = some req ∧
      req.Header.Get "Authorization" = some "Bearer abc") ∧
    (∃ req, buildRequest (sampleEnv 200 "\x7b\x7d") (NewTwitchClient []) "/channels/42" none =
        some req ∧
      req.Header.Get "Authorization" = none) := by
  constructor
  · obtain ⟨req, hreq, hset, -, -⟩ :=
      authorization_header (sampleEnv 200 "\x7b\x7d") (NewTwitchClient [WithBearerToken "abc"])
        "/channels/42" none (by decide)
    exact ⟨req, hreq, hset (by decide)⟩
  · obtain ⟨req, hreq, -, hnot, -⟩ :=
      authorization_header (sampleEnv 200 "\x7b\x7d") (NewTwitchClient []) "/channels/42" none
        (by decide)
    exact ⟨req, hreq, (hnot rfl).1⟩

/-! ## The response -/

/-- C4: when the transport returns a response whose status is not 200, the call
returns the error `Request failed with status: <code>`, does not read or decode
the body, and leaves the target as it was; the body is closed. -/
theorem non200_is_status_error {T : Type} (env : Env T) (client : TwitchClient)
    (endpoint : String) (options : Option RequestOptions) (out : T) (req : Request)
    (httpClient : HttpClient) (res : Response)
    (hreq : buildRequest env client endpoint options = some req)
    (hc : client.HttpClient = some httpClient)
    (hdo : httpClient.Do env req = .ok res)
    (hs : res.StatusCode ≠ 200) :
    (getRequest env client endpoint options out).outcome =
      Outcome.error ⟨"Request failed with status: " ++ formatInt res.StatusCode⟩ ∧
    (getRequest env client endpoint options out).out = out ∧
    (getRequest env client endpoint options out).trace = [Event.Do req, Event.Close] ∧
    Event.ReadAll ∉ (getRequest env client endpoint options out).trace ∧
    ∀ body, Event.Unmarshal body ∉ (getRequest env client endpoint options out).trace := by
  have hs' : res.StatusCode ≠ StatusOK := hs
  have e : getRequest env client endpoint options out =
      { outcome := .error (statusError res.StatusCode), out := out,
        trace := [.Do req, .Close] } := by
    unfold getRequest
    rw [hreq, hc]
    simp only [hdo]
    rw [if_pos hs']
  rw [e]
  simp [statusError]

/-- C4 at a transport that answers 404. -/
theorem non200_is_status_error_witness :
    (getRequest (sampleEnv 404 "not found") (NewTwitchClient []) "/channels/42" none
        "target").outcome = Outcome.error ⟨"Request failed with status: 404"⟩ ∧
    (getRequest (sampleEnv 404 "not found") (NewTwitchClient []) "/channels/42" none
        "target").out = "target" :=
  have h := non200_is_status_error (sampleEnv 404 "not found") (NewTwitchClient [])
    "/channels/42" none "target"
    { Method := "GET", URL := "https://api.twitch.tv/kraken/channels/42",
      Header := [("Client-ID", ""), ("Accept", "application/vnd.twitchtv.v3+json")] }
    defaultClient { StatusCode := 404, Body := ⟨"not found", none⟩ }
    (by decide) rfl rfl (by decide)
  ⟨h.1, h.2.1⟩

/-- C5: on a 200 response whose body does not decode, the call returns the
error of `json.Unmarshal` itself, after reading and closing the body; and a
call returns a nil error only when the status was 200 and the decode
succeeded. -/
theorem decode_error_is_returned {T : Type} (env : Env T) (client : TwitchClient)
    (endpoint : String) (options : Option RequestOptions) (out : T) :
    (∀ req httpClient res out' err,
      buildRequest env client endpoint options = some req →
      client.HttpClient = some httpClient →
      httpClient.Do env req = .ok res →
      res.StatusCode = 200 →
      env.Unmarshal res.Body.data out = (out', some err) →
      (getRequest env client endpoint options out).outcome = Outcome.error err ∧
      (getRequest env client endpoint options out).out = out' ∧
      (getRequest env client endpoint options out).trace =
        [Event.Do req, Event.ReadAll, Event.Unmarshal res.Body.data, Event.Close]) ∧
    ((getRequest env client endpoint options out).outcome = Outcome.nil →
      ∃ req httpClient res,
        buildRequest env client endpoint options = some req ∧
        client.HttpClient = some httpClient ∧
        httpClient.Do env req = .ok res ∧
        res.StatusCode = 200 ∧
        (env.Unmarshal res.Body.data out).2 = none ∧
        (getRequest env client endpoint options out).out =
          (env.Unmarshal res.Body.data out).1) := by
  constructor
  · intro req httpClient res out' err hreq hc hdo hs hun
    have hs' : ¬ res.StatusCode ≠ StatusOK := by simpa [StatusOK] using hs
    have e : getRequest env client endpoint options out =
        { outcome := .error err, out := out',
          trace := [.Do req, .ReadAll, .Unmarshal res.Body.data, .Close] } := by
      unfold getRequest
      rw [hreq, hc]
      simp only [hdo]
      rw [if_neg hs']
      simp only [ReadAll, hun]
    rw [e]
    exact ⟨rfl, rfl, rfl⟩
  · intro hnil
    unfold getRequest at hnil ⊢
    cases hreq : buildRequest env client endpoint options with
    | none => simp [hreq] at hnil
    | some req =>
      cases hc : client.HttpClient with
      | none => simp [hreq, hc] at hnil
      | some httpClient =>
        cases hdo : httpClient.Do env req with
        | error err => simp [hreq, hc, hdo] at hnil
        | ok res =>
          by_cases hs : res.StatusCode ≠ StatusOK
          · simp [hreq, hc, hdo, hs] at hnil
          · have hs200 : res.StatusCode = 200 := by simpa [StatusOK] using hs
            refine ⟨req, httpClient, res, rfl, rfl, hdo, hs200, ?_⟩
            simp only [hreq, hc, hdo, if_neg hs, ReadAll] at hnil ⊢
            cases hun : env.Unmarshal res.Body.data out with
            | mk out' oerr =>
              cases oerr with
              | none => simp
              | some err => simp [hun] at hnil

/-- C5 at a 200 response whose body is not the JSON the target takes. -/
theorem decode_error_is_returned_witness :
    (getRequest (sampleEnv 200 "\x7b") (NewTwitchClient []) "/channels/42" none
        "target").outcome = Outcome.error ⟨"unexpected end of JSON input"⟩ :=
  ((decode_error_is_returned (sampleEnv 200 "\x7b") (NewTwitchClient []) "/channels/42" none
      "target").1
    { Method := "GET", URL := "https://api.twitch.tv/kraken/channels/42",
      Header := [("Client-ID", ""), ("Accept", "application/vnd.twitchtv.v3+json")] }
    defaultClient { StatusCode := 200, Body := ⟨"\x7b", none⟩ } "target"
    ⟨"unexpected end of JSON input"⟩ (by decide) rfl rfl rfl (by decide)).1

/-- C9: when `http.NewRequest` rejects the URL, the call does not return an
error: the nil request is dereferenced and the call panics, before anything is
sent. -/
theorem rejected_url_panics {T : Type} (env : Env T) (client : TwitchClient)
    (endpoint : String) (options : Option RequestOptions) (out : T)
    (h : env.validURL (buildTarget endpoint options).1 = false) :
    (getRequest env client endpoint options out).outcome = Outcome.panic ∧
    (getRequest env client endpoint options out).trace = [] := by
  have hreq : buildRequest env client endpoint options = none := by
    unfold buildRequest NewRequest
    simp [h]
  unfold getRequest
  rw [hreq]
  exact ⟨rfl, rfl⟩

/-- C9 at the endpoint `/channels/%zz`, whose URL has an invalid escape. -/
theorem rejected_url_panics_witness :
    (sampleEnv 200 "\x7b\x7d").validURL (buildTarget "/channels/%zz" none).1 = false ∧
    (getRequest (sampleEnv 200 "\x7b\x7d") (NewTwitchClient []) "/channels/%zz" none
        "target").outcome = Outcome.panic :=
  ⟨by decide,
   (rejected_url_panics (sampleEnv 200 "\x7b\x7d") (NewTwitchClient []) "/channels/%zz" none
      "target" (by decide)).1⟩

/-! ## The client -/

theorem NewTwitchClient_append (opts : List TwitchClientOption) (opt : TwitchClientOption) :
    NewTwitchClient (opts ++ [opt]) = opt (NewTwitchClient opts) := by
  simp [NewTwitchClient, List.foldl_append]

theorem NewTwitchClient_settings (settings : List ClientSetting) :
    (NewTwitchClient (settings.map ClientSetting.toOption)).ClientID =
      ((settings.filterMap ClientSetting.clientID?).getLast?).getD "" ∧
    (NewTwitchClient (settings.map ClientSetting.toOption)).Token =
      ((settings.filterMap ClientSetting.token?).getLast?).getD "" ∧
    (NewTwitchClient (settings.map ClientSetting.toOption)).HttpClient =
      ((settings.filterMap ClientSetting.httpClient?).getLast?).getD (some defaultClient) := by
  induction settings using List.reverseRecOn with
  | nil => exact ⟨rfl, rfl, rfl⟩
  | append_singleton settings s ih =>
    obtain ⟨h1, h2, h3⟩ := ih
    rw [List.map_append, List.map_singleton, NewTwitchClient_append]
    simp only [List.filterMap_append]
    cases s with
    | clientID id =>
      simp [ClientSetting.toOption, WithClientID, ClientSetting.clientID?,
        ClientSetting.token?, ClientSetting.httpClient?, h2, h3, List.filterMap]
    | httpClient hc =>
      simp [ClientSetting.toOption, WithHTTPClient, ClientSetting.clientID?,
        ClientSetting.token?, ClientSetting.httpClient?, h1, h2, List.filterMap]
    | bearerToken tok =>
      simp [ClientSetting.toOption, WithBearerToken, ClientSetting.clientID?,
        ClientSetting.token?, ClientSetting.httpClient?, h1, h3, List.filterMap]

/-- C6: `NewTwitchClient` applies the options left to right to the defaults
(empty `ClientID`, empty `Token`, the default HTTP client); each of
`WithClientID`, `WithBearerToken` and `WithHTTPClient` changes its own field
alone; so each field ends with the value of the last option that sets it, and
keeps its default when no option sets it. -/
theorem options_applied_in_order :
    NewTwitchClient [] =
      { HttpClient := some defaultClient, ClientID := "", Token := "" } ∧
    (∀ opts opt, NewTwitchClient (opts ++ [opt]) = opt (NewTwitchClient opts)) ∧
    (∀ clientID cl, WithClientID clientID cl =
      { HttpClient := cl.HttpClient, ClientID := clientID, Token := cl.Token }) ∧
    (∀ token cl, WithBearerToken token cl =
      { HttpClient := cl.HttpClient, ClientID := cl.ClientID, Token := token }) ∧
    (∀ httpClient cl, WithHTTPClient httpClient cl =
      { HttpClient := httpClient, ClientID := cl.ClientID, Token := cl.Token }) ∧
    (∀ settings : List ClientSetting,
      (NewTwitchClient (settings.map ClientSetting.toOption)).ClientID =
        ((settings.filterMap ClientSetting.clientID?).getLast?).getD "" ∧
      (NewTwitchClient (settings.map ClientSetting.toOption)).Token =
        ((settings.filterMap ClientSetting.token?).getLast?).getD "" ∧
      (NewTwitchClient (settings.map ClientSetting.toOption)).HttpClient =
        ((settings.filterMap ClientSetting.httpClient?).getLast?).getD
          (some defaultClient)) :=
  ⟨rfl, NewTwitchClient_append, fun _ _ => rfl, fun _ _ => rfl, fun _ _ => rfl,
   NewTwitchClient_settings⟩

end Twitch
